/-
Verification of the drift-detection engine of the valueprops-etl repository.

The embedding translates, into Lean, the parts of the repository the claims
are about:
  * `src/load/drift_detectors/__init__.py`  — the detector dispatcher,
  * `src/load/drift_detectors/numerical_data.py` — PSI, KL, CUSUM detectors,
  * `src/load/drift_detectors/categorical_data.py` — chi-squared detector,
  * `src/load/main.py` — the orchestration loop (split, dispatch, sanitize,
    report accumulation).

Numeric data is modelled with exact arithmetic (`ℚ` for rational pipelines,
`ℝ`/`EReal` where the source takes logarithms), and Python floats that can be
NaN or infinite are modelled by the inductive type `EFloat` below.  Stateful
Python (exceptions, the report-building loop) is modelled with `Except` and
explicit folds.
-/
import Mathlib

namespace DriftEngine

/-! ## Floating-point outcome model

`np.isnan` / `np.isinf` classification of a Python float at the orchestrator
boundary (`src/load/main.py`, lines 49-51).  A float is either an ordinary
finite value (idealised as a rational), a NaN, or one of the two infinities. -/

inductive EFloat where
  | finite (q : ℚ)
  | nan
  | inf
  | neginf
deriving DecidableEq, Repr

/-- `np.isnan` on an `EFloat`. -/
def EFloat.isnan : EFloat → Bool
  | .nan => true
  | _ => false

/-- `np.isinf` on an `EFloat`: true for both `+inf` and `-inf`. -/
def EFloat.isinf : EFloat → Bool
  | .inf => true
  | .neginf => true
  | _ => false

/-- A float that is neither NaN nor infinite. -/
def EFloat.isFinite (s : EFloat) : Bool := !(s.isnan || s.isinf)

/-! ## Detector dispatcher

Embedding of `get_drift_detector` from `src/load/drift_detectors/__init__.py`.
A detector instance is one of the seven dataclasses, carrying its two dataset
slices and its parameters; the datasets themselves are opaque to the
dispatcher, so the type is polymorphic in the dataset type `DF`.  The Python
dataclass field defaults are:
  `alpha = 0.05`, `bins = 10` (PSI) / `num_bins = 10` (KL),
  `epsilon = 1e-5` (PSI), `threshold = 0.1` (PSI, CUSUM, KL),
modelled by the exact rationals `1/20`, `10`, `1/100000`, `1/10`. -/

inductive Detector (DF : Type) where
  | zTest (historical recent : DF) (alpha : ℚ)
  | psiCalculator (historical recent : DF) (bins : ℕ) (epsilon threshold : ℚ)
  | chiSquaredTest (historical recent : DF) (alpha : ℚ)
  | cramersVTest (historical recent : DF) (alpha : ℚ)
  | ksTest (historical recent : DF) (alpha : ℚ)
  | cusum (historical recent : DF) (threshold : ℚ)
  | klDivergence (historical recent : DF) (numBins : ℕ) (threshold : ℚ)
deriving DecidableEq, Repr

/-- The `detectors` dictionary of `get_drift_detector`: each entry maps a
method identifier to the dataclass constructor, which fills in the dataclass
defaults when called with only the two dataset slices (the dispatcher passes
nothing else). -/
def detectorsDict (DF : Type) : List (String × (DF → DF → Detector DF)) :=
  [ ("z_test", fun h r => .zTest h r (1/20)),
    ("psi_calculator", fun h r => .psiCalculator h r 10 (1/100000) (1/10)),
    ("chi_squared_test", fun h r => .chiSquaredTest h r (1/20)),
    ("cramers_v_test", fun h r => .cramersVTest h r (1/20)),
    ("ks_test", fun h r => .ksTest h r (1/20)),
    ("cusum", fun h r => .cusum h r (1/10)),
    ("kl_divergence", fun h r => .klDivergence h r 10 (1/10)) ]

/-- `get_drift_detector(detector_name, historical_data, recent_data)`
(`src/load/drift_detectors/__init__.py`, lines 20-46): look the name up in the
dictionary; a missing entry raises `ValueError(f"Handler does not exist:
{detector_name}")`, modelled as `.error`; otherwise the constructor is applied
to the two dataset slices. -/
def get_drift_detector {DF : Type} (detector_name : String)
    (historical_data recent_data : DF) : Except String (Detector DF) :=
  match (detectorsDict DF).lookup detector_name with
  | none => .error ("Handler does not exist: " ++ detector_name)
  | some ctor => .ok (ctor historical_data recent_data)

/-- The seven registered method identifiers. -/
def knownMethods : List String :=
  ["z_test", "psi_calculator", "chi_squared_test", "cramers_v_test",
   "ks_test", "cusum", "kl_divergence"]

/-! ## Configuration and orchestration loop

Embedding of `drift_monitoring` from `src/load/main.py`.  A column entry of
`config.toml` carries at least a `name` and a `method` key; it may carry
further method-specific parameter keys, which the orchestrator never reads
(lines 44-47 pass only `column["method"]` and the two slices to the
dispatcher). -/

structure ColumnCfg where
  name : String
  method : String
  /-- Method-specific parameter entries present in the per-column
  configuration table.  `drift_monitoring` never reads them. -/
  params : List (String × ℚ)
deriving DecidableEq, Repr

structure TableCfg where
  current_table : String
  columns : List ColumnCfg
deriving DecidableEq, Repr

/-- The detector construction at `src/load/main.py`, lines 45-47: only the
method identifier and the two slices reach the dispatcher. -/
def buildDetector {DF : Type} (column : ColumnCfg)
    (historical_data current_data : DF) : Except String (Detector DF) :=
  get_drift_detector column.method historical_data current_data

/-- The statistic sanitization of `src/load/main.py`, lines 49-51:
`if np.isnan(stat) | np.isinf(stat): stat = 0`. -/
def sanitizeStat (stat : EFloat) : EFloat :=
  if stat.isnan || stat.isinf then .finite 0 else stat

/-- One iteration of the per-column loop (`src/load/main.py`, lines 43-58):
invoke the detector for the column and pair the column name with the
(sanitized) result.  The runtime outcome of `detect_drift` is abstracted as a
function `runDet` from the method identifier and the two slices to either an
exception or a `(driftDetected, statistic)` pair. -/
def processColumn {DF E : Type} (runDet : String → DF → DF → Except E (Bool × EFloat))
    (historical current : DF) (column : ColumnCfg) :
    Except E (String × Bool × EFloat) :=
  match runDet column.method historical current with
  | .error e => .error e
  | .ok (driftDetected, stat) => .ok (column.name, driftDetected, sanitizeStat stat)

/-- The per-column loop of one table, in order; an uncaught exception in any
column aborts the run, as in the source (no handler around the loop). -/
def processColumns {DF E : Type} (runDet : String → DF → DF → Except E (Bool × EFloat))
    (historical current : DF) : List ColumnCfg → Except E (List (String × Bool × EFloat))
  | [] => .ok []
  | column :: rest =>
    match processColumn runDet historical current column with
    | .error e => .error e
    | .ok entry =>
      match processColumns runDet historical current rest with
      | .error e => .error e
      | .ok entries => .ok (entry :: entries)

/-- Processing of one configured table (`src/load/main.py`, lines 32-58):
load the table (`pd.read_csv`, which may fail), split it once into the
historical and current slices, then run the per-column loop against that one
split.  The split's randomness is abstracted by the `split` parameter. -/
def processTable {DF E : Type} (loader : String → Except E DF)
    (runDet : String → DF → DF → Except E (Bool × EFloat))
    (split : DF → DF × DF) (table : TableCfg) :
    Except E (String × List (String × Bool × EFloat)) :=
  match loader table.current_table with
  | .error e => .error e
  | .ok initial =>
    match processColumns runDet (split initial).1 (split initial).2 table.columns with
    | .error e => .error e
    | .ok entries => .ok (table.current_table, entries)

/-- The full monitoring run (`drift_monitoring`): the tables are processed
sequentially and an uncaught exception anywhere aborts the whole run — the
source wraps nothing in try/except, so the first failure propagates out of
`drift_monitoring` before the final report is emitted. -/
def driftMonitoring {DF E : Type} (loader : String → Except E DF)
    (runDet : String → DF → DF → Except E (Bool × EFloat))
    (split : DF → DF × DF) :
    List TableCfg → Except E (List (String × List (String × Bool × EFloat)))
  | [] => .ok []
  | table :: rest =>
    match processTable loader runDet split table with
    | .error e => .error e
    | .ok tableReport =>
      match driftMonitoring loader runDet split rest with
      | .error e => .error e
      | .ok restReport => .ok (tableReport :: restReport)

/-! ## The historical/recent split

Embedding of `src/load/main.py`, lines 40-41:
```
historical_data = initial_table.sample(frac=0.8)
current_data = initial_table.drop(historical_data.index)
```
A dataframe is modelled as a list of `(index label, row)` pairs.  `sample`
draws a uniformly random subset of `round(frac * len)` distinct rows
(pandas computes the size as Python `round(0.8 * n)`); the randomness is
abstracted by a `choice` parameter listing the chosen index labels.  `drop`
removes every row whose label occurs in the given label list. -/

/-- The number of rows `DataFrame.sample(frac=0.8)` draws from `n` rows:
Python `round(0.8 * n)`.  Modelled as rational rounding of `4*n/5`: the
fractional part of `4*n/5` is one of `0, 1/5, 2/5, 3/5, 4/5`, never `1/2`, so
Python's round-half-even and Lean's `round` agree, and the float error of
`0.8 * n` (below `2^-40 * n` for any realistic `n`) cannot move the product
across a rounding boundary. -/
def sampleSize (n : ℕ) : ℕ := (round ((4 * n : ℚ) / 5)).toNat

/-- `initial_table.sample(frac=0.8)` for one concrete random draw `choice`:
the rows whose label was drawn. -/
def sampleRows {ι ρ : Type} [DecidableEq ι] (df : List (ι × ρ)) (choice : List ι) :
    List (ι × ρ) :=
  df.filter fun row => decide (row.1 ∈ choice)

/-- `initial_table.drop(labels)`: the rows whose label is not in `labels`. -/
def dropRows {ι ρ : Type} [DecidableEq ι] (df : List (ι × ρ)) (labels : List ι) :
    List (ι × ρ) :=
  df.filter fun row => !decide (row.1 ∈ labels)

/-- The per-table split of `drift_monitoring` for one concrete random draw:
`historical = sample(frac=0.8)`, `current = drop(historical.index)`.  When
`choice ⊆ df` labels, the labels of the sampled slice are exactly `choice`,
so dropping by `choice` is dropping by `historical.index`. -/
def splitTable {ι ρ : Type} [DecidableEq ι] (df : List (ι × ρ)) (choice : List ι) :
    List (ι × ρ) × List (ι × ρ) :=
  (sampleRows df choice, dropRows df choice)

/-! ## CUSUM

`CUSUM.detect_drift` (`src/load/drift_detectors/numerical_data.py`, lines
175-201).  The loop body (lines 190-198) is embedded verbatim below.  The
series construction at line 188,
`data = self.recent_data[column_name].concat(self.historical_data[column_name])`,
calls a method `concat` that `pandas.Series` does not have, so the source
raises `AttributeError` on every invocation; `cusumData` models the
concatenation the line (and the source comment "concatenate recent followed
by historical") intends, recent first, historical second. -/

/-- The CUSUM accumulation loop (`numerical_data.py`, lines 190-198):
`s_pos = max(0, s_pos + deviation)`, `s_neg = min(0, s_neg + deviation)`;
on a crossing of either threshold the index is recorded and both
accumulators are reset to `0`. -/
def cusumScan (threshold target_mean : ℚ) :
    List ℚ → ℕ → ℚ → ℚ → List ℕ
  | [], _, _, _ => []
  | x :: rest, i, s_pos, s_neg =>
    let deviation := x - target_mean
    let s_pos' := max 0 (s_pos + deviation)
    let s_neg' := min 0 (s_neg + deviation)
    if threshold < s_pos' ∨ s_neg' < -threshold then
      i :: cusumScan threshold target_mean rest (i + 1) 0 0
    else
      cusumScan threshold target_mean rest (i + 1) s_pos' s_neg'

/-- The data series the CUSUM detector intends to scan: the recent column
followed by the historical column (source comment and line 188). -/
def cusumData (historical recent : List ℚ) : List ℚ := recent ++ historical

/-- `CUSUM.detect_drift` as the source intends it (the actual line 188 raises
`AttributeError`, see `cusumScan`'s note): scan the concatenated series
against the historical mean, return the crossing indices and whether any
crossing was recorded. -/
def CUSUM.detectDrift (historical recent : List ℚ) (threshold : ℚ) :
    Bool × List ℕ :=
  let target_mean := historical.sum / historical.length
  let drift_indices := cusumScan threshold target_mean
    (cusumData historical recent) 0 0 0
  (decide (0 < drift_indices.length), drift_indices)

/-! ## numpy histogram model

`np.histogram(data, bins=B)` and `np.histogram(data, bins=bin_edges)` as used
by `PSICalculator.detect_drift` and `KLDivergence.detect_drift`
(`numerical_data.py`, lines 83-86 and 240-243), in exact rational arithmetic:
  * with an integer bin count, the range is `[min, max]` of the data
    (`(0, 1)` for empty data, `(v - 0.5, v + 0.5)` for constant data `v`),
    cut into `B` equal-width bins;
  * every bin is half-open `[e_j, e_{j+1})` except the last, which is closed;
  * with explicit edges, values outside `[e_0, e_B]` are not counted. -/

/-- The histogram range numpy derives from the data. -/
def histRange (data : List ℚ) : ℚ × ℚ :=
  match data with
  | [] => (0, 1)
  | x :: rest =>
    let lo := rest.foldl min x
    let hi := rest.foldl max x
    if lo = hi then (lo - 1/2, hi + 1/2) else (lo, hi)

/-- The `B + 1` equal-width bin edges over `[lo, hi]`. -/
def binEdges (lo hi : ℚ) (B : ℕ) : List ℚ :=
  (List.range (B + 1)).map fun (i : ℕ) => lo + (i : ℚ) * (hi - lo) / B

/-- The number of data points in bin `j` of the given edge list: half-open
bins, except that the last bin also contains its right edge. -/
def countBin (data : List ℚ) (edges : List ℚ) (j : ℕ) : ℕ :=
  let a := edges.getD j 0
  let b := edges.getD (j + 1) 0
  if j + 2 = edges.length then
    data.countP fun x => decide (a ≤ x) && decide (x ≤ b)
  else
    data.countP fun x => decide (a ≤ x) && decide (x < b)

/-- All bin counts for the given edges. -/
def histogramCounts (data : List ℚ) (edges : List ℚ) : List ℕ :=
  (List.range (edges.length - 1)).map (countBin data edges)

/-- `np.histogram(data, bins=B)`: the pair `(counts, bin_edges)`. -/
def npHistogram (data : List ℚ) (B : ℕ) : List ℕ × List ℚ :=
  let edges := binEdges (histRange data).1 (histRange data).2 B
  (histogramCounts data edges, edges)

/-! ## PSI

`PSICalculator.detect_drift` (`numerical_data.py`, lines 72-102). -/

/-- `PSICalculator.detect_drift`: bin the historical column, re-use its edges
for the recent column, add `epsilon` to every count, normalize each count
vector to probabilities, and sum `(p_recent - p_hist) * ln(p_recent/p_hist)`.
The probability pipeline is exact rational arithmetic; the logarithm makes
the statistic a real number.  Drift is decided by `psi > threshold`. -/
noncomputable def PSICalculator.detectDrift (historical recent : List ℚ)
    (bins : ℕ) (epsilon threshold : ℚ) : Prop × ℝ :=
  let hp := npHistogram historical bins
  let hist_counts := hp.1
  let bin_edges := hp.2
  let recent_counts := histogramCounts recent bin_edges
  let hist_eps := hist_counts.map fun (c : ℕ) => (c : ℚ) + epsilon
  let recent_eps := recent_counts.map fun (c : ℕ) => (c : ℚ) + epsilon
  let hist_probs := hist_eps.map fun c => c / hist_eps.sum
  let recent_probs := recent_eps.map fun c => c / recent_eps.sum
  let psi_values := List.zipWith
    (fun r h => ((r - h : ℚ) : ℝ) * Real.log ((r : ℚ) / (h : ℚ) : ℚ))
    recent_probs hist_probs
  let psi := psi_values.sum
  (psi > (threshold : ℚ), psi)

/-- The PSI probability vector the spec describes, as a function of the bin
index: bin count of the sample under the historical-sample-derived equal-width
edges, plus `ε`, divided by the total of those smoothed counts. -/
def specBinProb (sample historical : List ℚ) (B : ℕ) (epsilon : ℚ) (j : ℕ) : ℚ :=
  let edges := (npHistogram historical B).2
  let counts := histogramCounts sample edges
  ((counts.getD j 0 : ℚ) + epsilon) / (counts.map fun (c : ℕ) => (c : ℚ) + epsilon).sum

/-- The PSI formula as the spec states it:
`PSI = Σ_j (p_recent(j) - p_hist(j)) * ln(p_recent(j) / p_hist(j))` over the
`B` bins. -/
noncomputable def psiSpec (historical recent : List ℚ) (B : ℕ) (epsilon : ℚ) : ℝ :=
  ∑ j ∈ Finset.range B,
    ((specBinProb recent historical B epsilon j
        - specBinProb historical historical B epsilon j : ℚ) : ℝ)
      * Real.log ((specBinProb recent historical B epsilon j
          / specBinProb historical historical B epsilon j : ℚ) : ℝ)

/-! ## KL divergence

`KLDivergence.detect_drift` (`numerical_data.py`, lines 223-248) and
`scipy.stats.entropy(pk, qk)`.  No epsilon is added to the counts (despite the
source comment at line 244): `hist_probs = hist_counts / sum(hist_counts)` and
likewise for the recent counts, then `entropy(hist_probs, recent_probs)`. -/

/-- One term of `scipy.special.rel_entr(p, q)` for `p, q ≥ 0`, valued in the
extended reals: `0` if `p = 0`, `+∞` if `p > 0` and `q = 0`, else
`p * log(p/q)`. -/
noncomputable def relEntr (p q : ℚ) : EReal :=
  if p = 0 then 0
  else if q = 0 then ⊤
  else (((p : ℝ) * Real.log ((p : ℚ) / (q : ℚ) : ℚ) : ℝ) : EReal)

/-- `scipy.stats.entropy(pk, qk)`: normalize each vector by its sum and sum
`rel_entr` over the pairs.  (For the degenerate inputs on which a vector sums
to zero the Python computation yields NaN; the rational convention `x / 0 = 0`
applies here instead, and every theorem below assumes the sums are nonzero.) -/
noncomputable def scipyEntropy (pk qk : List ℚ) : EReal :=
  let p := pk.map fun x => x / pk.sum
  let q := qk.map fun x => x / qk.sum
  ((p.zip q).map fun pq => relEntr pq.1 pq.2).sum

/-- `KLDivergence.detect_drift`: bin the historical column, re-use its edges
for the recent column, normalize the raw counts (no epsilon), and take
`entropy(hist_probs, recent_probs)`.  Drift is decided by `kld > threshold`. -/
noncomputable def KLDivergence.detectDrift (historical recent : List ℚ)
    (num_bins : ℕ) (threshold : ℚ) : Prop × EReal :=
  let hp := npHistogram historical num_bins
  let hist_counts := hp.1
  let bin_edges := hp.2
  let recent_counts := histogramCounts recent bin_edges
  let kld := scipyEntropy (hist_counts.map fun (c : ℕ) => (c : ℚ))
    (recent_counts.map fun (c : ℕ) => (c : ℚ))
  (kld > ((threshold : ℝ) : EReal), kld)

/-! ## Categorical detectors

`ChiSquaredTest.detect_drift` (`categorical_data.py`, lines 29-50) builds
`pd.crosstab(historical[col], recent[col])` and hands it to
`scipy.stats.chi2_contingency`.  A column is modelled as a list of
`(index label, value)` pairs.  `pd.crosstab` aligns its two arguments on
their index labels: only labels present in both series contribute a
`(historical value, recent value)` observation pair, and the contingency
table counts those pairs over the distinct values occurring in them. -/

/-- The `(historical value, recent value)` observations `pd.crosstab` pairs
by index label. -/
def pairedObservations {ι α : Type} [DecidableEq ι] (s1 s2 : List (ι × α)) :
    List (α × α) :=
  s1.filterMap fun p => (s2.lookup p.1).map fun b => (p.2, b)

/-- `pd.crosstab(s1, s2)`: the contingency table of the paired observations,
rows indexed by the distinct first components, columns by the distinct second
components (pandas sorts the category labels; the row/column order is
irrelevant to everything proved below). -/
def crosstab {ι α : Type} [DecidableEq ι] [DecidableEq α] (s1 s2 : List (ι × α)) :
    List (List ℕ) :=
  let pairs := pairedObservations s1 s2
  let rowCats := (pairs.map Prod.fst).dedup
  let colCats := (pairs.map Prod.snd).dedup
  rowCats.map fun a => colCats.map fun b => pairs.count (a, b)

/-- The survival function of the chi-squared distribution with `k` degrees of
freedom, `P(X > x)`, via the regularized upper incomplete gamma function. -/
noncomputable def chi2sf (k : ℕ) (x : ℚ) : ℝ :=
  (∫ t in Set.Ioi ((x : ℝ) / 2), t ^ ((k : ℝ) / 2 - 1) * Real.exp (-t))
    / Real.Gamma ((k : ℝ) / 2)

/-- The number of cells of a contingency table. -/
def tableSize (observed : List (List ℕ)) : ℕ := (observed.map List.length).sum

/-- Yates' continuity correction applied to one cell: the observed count is
moved half a unit towards the expected count. -/
def yates (e o : ℚ) : ℚ :=
  if o < e then o + 1/2 else if e < o then o - 1/2 else o

/-- `scipy.stats.chi2_contingency(observed)` with the default
`correction=True`, returning `(chi2, p, dof)`:
  * an empty table raises `ValueError("No data; `observed` has size 0.")`;
  * a zero expected frequency raises;
  * `dof = size - (rows + cols) + 1`; a degenerate table (`dof = 0`) yields
    `chi2 = 0, p = 1`; at `dof = 1` Yates' correction is applied;
  * otherwise `chi2 = Σ (o - e)² / e` with `e = rowsum * colsum / total`
    and `p` the chi-squared survival function at `chi2`. -/
noncomputable def chi2_contingency (observed : List (List ℕ)) :
    Except String (ℚ × ℝ × ℕ) :=
  if tableSize observed = 0 then
    .error "No data; `observed` has size 0."
  else
    let rows := observed.length
    let cols := (observed.headD []).length
    let total : ℚ := ((observed.map List.sum).sum : ℕ)
    let rowSum : ℕ → ℚ := fun i => ((observed.getD i []).sum : ℕ)
    let colSum : ℕ → ℚ := fun j => ((observed.map fun row => row.getD j 0).sum : ℕ)
    let expected : ℕ → ℕ → ℚ := fun i j => rowSum i * colSum j / total
    if ∃ i ∈ Finset.range rows, ∃ j ∈ Finset.range cols, expected i j = 0 then
      .error "The internally computed table of expected frequencies has a zero element."
    else
      let dof : ℤ := (tableSize observed : ℤ) - (rows + cols : ℕ) + 1
      if dof = 0 then .ok (0, 1, 0)
      else
        let adjust : ℚ → ℚ → ℚ := if dof = 1 then yates else fun _ o => o
        let chi2 := ∑ i ∈ Finset.range rows, ∑ j ∈ Finset.range cols,
          (adjust (expected i j) (((observed.getD i []).getD j 0 : ℕ) : ℚ) - expected i j) ^ 2
            / expected i j
        .ok (chi2, chi2sf dof.toNat chi2, dof.toNat)

/-- `ChiSquaredTest.detect_drift`: cross-tabulate the two column series,
run the chi-squared test, and decide drift by `p < alpha`.  The uncaught
`ValueError` from an empty contingency table propagates as `.error`. -/
noncomputable def ChiSquaredTest.detectDrift {ι α : Type} [DecidableEq ι]
    [DecidableEq α] (historical recent : List (ι × α)) (alpha : ℚ) :
    Except String (Prop × ℝ) :=
  match chi2_contingency (crosstab historical recent) with
  | .error e => .error e
  | .ok (_, p_value, _) => .ok (p_value < (alpha : ℝ), p_value)

/-- `CramersVTest.detect_drift` (`categorical_data.py`, lines 70-96): the same
contingency table and chi-squared test; the reported statistic is
`sqrt(chi2 / (n * (min_dim - 1)))` and drift is decided by `p < alpha`. -/
noncomputable def CramersVTest.detectDrift {ι α : Type} [DecidableEq ι]
    [DecidableEq α] (historical recent : List (ι × α)) (alpha : ℚ) :
    Except String (Prop × ℝ) :=
  match chi2_contingency (crosstab historical recent) with
  | .error e => .error e
  | .ok (chi2, p_value, _) =>
    let table := crosstab historical recent
    let n : ℚ := ((table.map List.sum).sum : ℕ)
    let min_dim : ℕ := min table.length (table.headD []).length
    let cramer_v := Real.sqrt ((chi2 : ℝ) / ((n : ℝ) * ((min_dim : ℝ) - 1)))
    .ok (p_value < (alpha : ℝ), cramer_v)

/-! ## Concrete fixtures used by witnesses and counterexamples -/

/-- Concrete orchestration run for `orchestrator_sanitizes`: a detector
that returns a NaN statistic, recorded as `0.0` in the report. -/
def loader0 : String → Except String Unit := fun _ => .ok ()

def runDet0 : String → Unit → Unit → Except String (Bool × EFloat) :=
  fun _ _ _ => .ok (true, .nan)

def split0 : Unit → Unit × Unit := fun _ => ((), ())

def table0 : TableCfg := ⟨"orders.csv", [⟨"amount", "psi_calculator", []⟩]⟩

/-- Concrete configuration for the C9 counterexample: the first table's file
is missing, the second one loads fine. -/
def loaderFail : String → Except String Unit := fun name =>
  if name = "missing.csv" then .error "FileNotFoundError: missing.csv" else .ok ()

def tableBad : TableCfg := ⟨"missing.csv", [⟨"amount", "z_test", []⟩]⟩

def tableGood : TableCfg := ⟨"orders.csv", [⟨"amount", "psi_calculator", []⟩]⟩

/-! ## Dispatcher theorems (claims C2, C8) -/

/-- C2: For every method identifier outside
`{z_test, psi_calculator, chi_squared_test, cramers_v_test, ks_test, cusum,
kl_divergence}`, `get_drift_detector` raises a configuration error whose
message contains the unknown identifier and never returns any detector; for
every identifier inside that set it returns an instance of the corresponding
detector class. -/
theorem get_drift_detector_dispatch {DF : Type} (h r : DF) (name : String) :
    (name ∉ knownMethods →
      get_drift_detector name h r = .error ("Handler does not exist: " ++ name)
        ∧ ∀ d : Detector DF, get_drift_detector name h r ≠ .ok d)
    ∧ get_drift_detector "z_test" h r = .ok (.zTest h r (1/20))
    ∧ get_drift_detector "psi_calculator" h r
        = .ok (.psiCalculator h r 10 (1/100000) (1/10))
    ∧ get_drift_detector "chi_squared_test" h r = .ok (.chiSquaredTest h r (1/20))
    ∧ get_drift_detector "cramers_v_test" h r = .ok (.cramersVTest h r (1/20))
    ∧ get_drift_detector "ks_test" h r = .ok (.ksTest h r (1/20))
    ∧ get_drift_detector "cusum" h r = .ok (.cusum h r (1/10))
    ∧ get_drift_detector "kl_divergence" h r = .ok (.klDivergence h r 10 (1/10)) := by
  refine ⟨fun hname => ?_, rfl, rfl, rfl, rfl, rfl, rfl, rfl⟩
  simp only [knownMethods, List.mem_cons, List.not_mem_nil, or_false, not_or] at hname
  obtain ⟨h1, h2, h3, h4, h5, h6, h7⟩ := hname
  have hlook : (detectorsDict DF).lookup name = none := by
    simp [detectorsDict, List.lookup, beq_eq_false_iff_ne.mpr h1,
      beq_eq_false_iff_ne.mpr h2, beq_eq_false_iff_ne.mpr h3,
      beq_eq_false_iff_ne.mpr h4, beq_eq_false_iff_ne.mpr h5,
      beq_eq_false_iff_ne.mpr h6, beq_eq_false_iff_ne.mpr h7]
  refine ⟨by simp [get_drift_detector, hlook], fun d => by simp [get_drift_detector, hlook]⟩

/-- Witness for `get_drift_detector_dispatch` at the unregistered identifier
`"bogus_test"`. -/
theorem get_drift_detector_dispatch_witness :
    ("bogus_test" ∉ knownMethods)
    ∧ get_drift_detector "bogus_test" (0 : ℕ) 1
        = .error ("Handler does not exist: " ++ "bogus_test") := by
  have hmem : ("bogus_test" : String) ∉ knownMethods := by decide
  exact ⟨hmem, ((get_drift_detector_dispatch (0 : ℕ) 1 "bogus_test").1 hmem).1⟩

/-- C8 (amended): every detector instance constructed through the dispatcher
carries the dataclass defaults (α = 0.05, bins = 10, ε = 1e-5,
threshold = 0.1); the orchestrator passes only the method identifier and the
two dataset slices to the dispatcher, so the method-specific parameter
entries of the per-column configuration never reach the instance — two
column configurations with the same method produce the same detector. -/
theorem buildDetector_defaults {DF : Type} (column column' : ColumnCfg)
    (h r : DF) (hm : column.method = column'.method) :
    buildDetector column h r = buildDetector column' h r
    ∧ (column.method = "z_test" → buildDetector column h r = .ok (.zTest h r (1/20)))
    ∧ (column.method = "psi_calculator" →
        buildDetector column h r = .ok (.psiCalculator h r 10 (1/100000) (1/10)))
    ∧ (column.method = "chi_squared_test" →
        buildDetector column h r = .ok (.chiSquaredTest h r (1/20)))
    ∧ (column.method = "cramers_v_test" →
        buildDetector column h r = .ok (.cramersVTest h r (1/20)))
    ∧ (column.method = "ks_test" → buildDetector column h r = .ok (.ksTest h r (1/20)))
    ∧ (column.method = "cusum" → buildDetector column h r = .ok (.cusum h r (1/10)))
    ∧ (column.method = "kl_divergence" →
        buildDetector column h r = .ok (.klDivergence h r 10 (1/10))) := by
  refine ⟨by simp [buildDetector, hm], ?_, ?_, ?_, ?_, ?_, ?_, ?_⟩ <;>
    (intro hme; unfold buildDetector; rw [hme]; rfl)

/-- Witness for `buildDetector_defaults`: a column configured with
`psi_calculator` and an explicit `threshold` parameter entry of `0.5`. -/
theorem buildDetector_defaults_witness :
    ((⟨"amount", "psi_calculator", [("threshold", 1/2)]⟩ : ColumnCfg).method
        = (⟨"amount", "psi_calculator", []⟩ : ColumnCfg).method)
    ∧ buildDetector (⟨"amount", "psi_calculator", [("threshold", 1/2)]⟩ : ColumnCfg)
        (0 : ℕ) 1
      = buildDetector (⟨"amount", "psi_calculator", []⟩ : ColumnCfg) (0 : ℕ) 1
    ∧ buildDetector (⟨"amount", "psi_calculator", [("threshold", 1/2)]⟩ : ColumnCfg)
        (0 : ℕ) 1
      = .ok (.psiCalculator 0 1 10 (1/100000) (1/10)) :=
  ⟨rfl,
    (buildDetector_defaults ⟨"amount", "psi_calculator", [("threshold", 1/2)]⟩
      ⟨"amount", "psi_calculator", []⟩ (0 : ℕ) 1 rfl).1,
    (buildDetector_defaults ⟨"amount", "psi_calculator", [("threshold", 1/2)]⟩
      ⟨"amount", "psi_calculator", []⟩ (0 : ℕ) 1 rfl).2.2.1 rfl⟩

/-- C8 (counterexample to the claim as stated): a per-column configuration
supplying the method-specific parameter `threshold = 0.5` for the
`psi_calculator` method still yields a detector instance with the default
threshold `0.1` — the configured parameter does not override the default,
because the orchestrator's construction passes only the method name. -/
theorem buildDetector_ignores_params_counterexample :
    buildDetector (⟨"amount", "psi_calculator", [("threshold", 1/2)]⟩ : ColumnCfg)
        (0 : ℕ) 1
      = .ok (.psiCalculator 0 1 10 (1/100000) (1/10))
    ∧ ((1 : ℚ)/10 ≠ 1/2) := by
  refine ⟨rfl, by norm_num⟩

/-! ## Orchestrator theorems (claims C1, C9) -/

theorem sanitizeStat_isFinite (s : EFloat) : (sanitizeStat s).isFinite = true := by
  cases s <;> simp [sanitizeStat, EFloat.isFinite, EFloat.isnan, EFloat.isinf]

theorem processColumn_ok {DF E : Type}
    {runDet : String → DF → DF → Except E (Bool × EFloat)}
    {historical current : DF} {column : ColumnCfg} {entry}
    (hp : processColumn runDet historical current column = .ok entry) :
    ∃ driftDetected raw, runDet column.method historical current = .ok (driftDetected, raw)
      ∧ entry = (column.name, driftDetected, sanitizeStat raw) := by
  unfold processColumn at hp
  cases hr : runDet column.method historical current with
  | error e => rw [hr] at hp; exact Except.noConfusion hp
  | ok pr =>
    obtain ⟨d, raw⟩ := pr
    rw [hr] at hp
    exact ⟨d, raw, rfl, (Except.ok.inj hp).symm⟩

theorem processColumns_ok {DF E : Type}
    {runDet : String → DF → DF → Except E (Bool × EFloat)}
    {historical current : DF} :
    ∀ {columns : List ColumnCfg} {entries},
      processColumns runDet historical current columns = .ok entries →
      ∀ e ∈ entries, ∃ column ∈ columns,
        processColumn runDet historical current column = .ok e := by
  intro columns
  induction columns with
  | nil =>
    intro entries hps e he
    simp only [processColumns, Except.ok.injEq] at hps
    subst hps; simp at he
  | cons column rest ih =>
    intro entries hps e he
    unfold processColumns at hps
    cases hc : processColumn runDet historical current column with
    | error err => rw [hc] at hps; exact Except.noConfusion hps
    | ok entry =>
      rw [hc] at hps
      cases hcs : processColumns runDet historical current rest with
      | error err =>
        rw [hcs] at hps; exact Except.noConfusion hps
      | ok entriesRest =>
        rw [hcs] at hps
        obtain rfl : entry :: entriesRest = entries := Except.ok.inj hps
        rcases List.mem_cons.mp he with rfl | hmem
        · exact ⟨column, List.mem_cons_self .., hc⟩
        · obtain ⟨c, hcmem, hok⟩ := ih hcs e hmem
          exact ⟨c, List.mem_cons_of_mem _ hcmem, hok⟩

theorem processTable_ok {DF E : Type} {loader : String → Except E DF}
    {runDet : String → DF → DF → Except E (Bool × EFloat)}
    {split : DF → DF × DF} {table : TableCfg} {tableReport}
    (hp : processTable loader runDet split table = .ok tableReport) :
    ∀ e ∈ tableReport.2, ∃ historical current column, column ∈ table.columns ∧
      processColumn runDet historical current column = .ok e := by
  unfold processTable at hp
  split at hp
  · exact Except.noConfusion hp
  · rename_i initial hl
    split at hp
    · exact Except.noConfusion hp
    · rename_i entries hcs
      obtain rfl : (table.current_table, entries) = tableReport := Except.ok.inj hp
      intro e he
      obtain ⟨column, hcmem, hok⟩ := processColumns_ok hcs e he
      exact ⟨(split initial).1, (split initial).2, column, hcmem, hok⟩

theorem driftMonitoring_ok {DF E : Type} {loader : String → Except E DF}
    {runDet : String → DF → DF → Except E (Bool × EFloat)}
    {split : DF → DF × DF} :
    ∀ {tables : List TableCfg} {report},
      driftMonitoring loader runDet split tables = .ok report →
      ∀ tr ∈ report, ∃ table ∈ tables,
        processTable loader runDet split table = .ok tr := by
  intro tables
  induction tables with
  | nil =>
    intro report hrun tr htr
    simp only [driftMonitoring, Except.ok.injEq] at hrun
    subst hrun; simp at htr
  | cons table rest ih =>
    intro report hrun tr htr
    unfold driftMonitoring at hrun
    cases ht : processTable loader runDet split table with
    | error err => rw [ht] at hrun; exact Except.noConfusion hrun
    | ok tableReport =>
      rw [ht] at hrun
      cases hrest : driftMonitoring loader runDet split rest with
      | error err => rw [hrest] at hrun; exact Except.noConfusion hrun
      | ok restReport =>
        rw [hrest] at hrun
        obtain rfl : tableReport :: restReport = report := Except.ok.inj hrun
        rcases List.mem_cons.mp htr with rfl | hmem
        · exact ⟨table, List.mem_cons_self .., ht⟩
        · obtain ⟨t, htmem, hok⟩ := ih hrest tr hmem
          exact ⟨t, List.mem_cons_of_mem _ htmem, hok⟩

/-- C1: every statistic the orchestrator records in the drift report is
finite; the per-column step records the pair `(driftDetected, statistic)`
where the statistic is the detector's raw statistic if it is neither NaN nor
infinite, and `0.0` otherwise. -/
theorem orchestrator_sanitizes {DF E : Type} (loader : String → Except E DF)
    (runDet : String → DF → DF → Except E (Bool × EFloat))
    (split : DF → DF × DF) (tables : List TableCfg) (report)
    (hrun : driftMonitoring loader runDet split tables = .ok report) :
    (∀ tr ∈ report, ∀ e ∈ tr.2, EFloat.isFinite e.2.2 = true)
    ∧ (∀ (historical current : DF) (column : ColumnCfg) entry,
        processColumn runDet historical current column = .ok entry →
        ∃ driftDetected raw,
          runDet column.method historical current = .ok (driftDetected, raw)
          ∧ entry = (column.name, driftDetected, sanitizeStat raw)
          ∧ ((raw.isnan || raw.isinf) = true → entry.2.2 = .finite 0)
          ∧ ((raw.isnan || raw.isinf) = false → entry.2.2 = raw)) := by
  constructor
  · intro tr htr e he
    obtain ⟨table, _, hok⟩ := driftMonitoring_ok hrun tr htr
    obtain ⟨historical, current, column, _, hcol⟩ := processTable_ok hok e he
    obtain ⟨d, raw, _, hentry⟩ := processColumn_ok hcol
    rw [hentry]
    exact sanitizeStat_isFinite raw
  · intro historical current column entry hcol
    obtain ⟨d, raw, hrd, hentry⟩ := processColumn_ok hcol
    refine ⟨d, raw, hrd, hentry, ?_, ?_⟩ <;> intro hc <;> rw [hentry] <;>
      simp [sanitizeStat, hc]

/-- Witness for `orchestrator_sanitizes`: the concrete run produces a report
whose only statistic is the sanitized `0.0`, and every recorded statistic is
finite. -/
theorem orchestrator_sanitizes_witness :
    driftMonitoring loader0 runDet0 split0 [table0]
      = .ok [("orders.csv", [("amount", true, .finite 0)])]
    ∧ EFloat.isFinite (("amount", true, EFloat.finite 0)).2.2 = true := by
  have hrun : driftMonitoring loader0 runDet0 split0 [table0]
      = .ok [("orders.csv", [("amount", true, .finite 0)])] := rfl
  refine ⟨hrun, ?_⟩
  exact (orchestrator_sanitizes loader0 runDet0 split0 [table0] _ hrun).1
    ("orders.csv", [("amount", true, EFloat.finite 0)]) (by simp)
    ("amount", true, EFloat.finite 0) (by simp)

/-- C9 (amended): processing is sequential with no per-table exception
isolation — if loading a configured table fails, the error propagates and
aborts the entire monitoring run at that table. -/
theorem load_failure_aborts_run {DF E : Type} (loader : String → Except E DF)
    (runDet : String → DF → DF → Except E (Bool × EFloat))
    (split : DF → DF × DF) (table : TableCfg) (rest : List TableCfg) (e : E)
    (hfail : loader table.current_table = .error e) :
    driftMonitoring loader runDet split (table :: rest) = .error e := by
  unfold driftMonitoring processTable
  rw [hfail]

/-- C9 (counterexample to the claim as stated): with a missing first table
and a perfectly processable second table, the run does not continue to the
next table — it aborts with the load error and emits no report at all, even
though processing the second table alone succeeds. -/
theorem load_failure_counterexample :
    driftMonitoring loaderFail runDet0 split0 [tableBad, tableGood]
      = .error "FileNotFoundError: missing.csv"
    ∧ processTable loaderFail runDet0 split0 tableGood
      = .ok ("orders.csv", [("amount", true, .finite 0)]) :=
  ⟨rfl, rfl⟩

/-- Witness for `load_failure_aborts_run` at the concrete configuration. -/
theorem load_failure_aborts_run_witness :
    loaderFail tableBad.current_table = .error "FileNotFoundError: missing.csv"
    ∧ driftMonitoring loaderFail runDet0 split0 [tableBad, tableGood]
      = .error "FileNotFoundError: missing.csv" :=
  ⟨rfl, load_failure_aborts_run loaderFail runDet0 split0 tableBad [tableGood]
    "FileNotFoundError: missing.csv" rfl⟩

/-! ## CUSUM theorems (claim C5) -/

theorem cusumScan_bounds (threshold target_mean : ℚ) :
    ∀ (data : List ℚ) (i : ℕ) (s_pos s_neg : ℚ),
      ∀ j ∈ cusumScan threshold target_mean data i s_pos s_neg,
        i ≤ j ∧ j < i + data.length := by
  intro data
  induction data with
  | nil => intro i s_pos s_neg j hj; simp [cusumScan] at hj
  | cons x rest ih =>
    intro i s_pos s_neg j hj
    unfold cusumScan at hj
    by_cases hcross :
        threshold < max 0 (s_pos + (x - target_mean))
          ∨ min 0 (s_neg + (x - target_mean)) < -threshold
    · rw [if_pos hcross] at hj
      rcases List.mem_cons.mp hj with rfl | hmem
      · simp
      · have := ih (i + 1) 0 0 j hmem
        simp only [List.length_cons]
        omega
    · rw [if_neg hcross] at hj
      have := ih (i + 1) _ _ j hj
      simp only [List.length_cons]
      omega

theorem cusumScan_sorted (threshold target_mean : ℚ) :
    ∀ (data : List ℚ) (i : ℕ) (s_pos s_neg : ℚ),
      (cusumScan threshold target_mean data i s_pos s_neg).Pairwise (· < ·) := by
  intro data
  induction data with
  | nil => intro i s_pos s_neg; simp [cusumScan]
  | cons x rest ih =>
    intro i s_pos s_neg
    unfold cusumScan
    by_cases hcross :
        threshold < max 0 (s_pos + (x - target_mean))
          ∨ min 0 (s_neg + (x - target_mean)) < -threshold
    · rw [if_pos hcross]
      refine List.pairwise_cons.mpr ⟨fun j hj => ?_, ih (i + 1) 0 0⟩
      have := (cusumScan_bounds threshold target_mean rest (i + 1) 0 0 j hj).1
      omega
    · rw [if_neg hcross]
      exact ih (i + 1) _ _

/-- C5 (supporting theorem for the intended CUSUM semantics): drift is
reported iff at least one crossing index was recorded; the recorded indices
are strictly increasing (each crossing resets the accumulators to 0, so
distinct shifts yield distinct indices) and every index is a position in the
concatenated recent-then-historical sequence.  The actual source line 188
raises `AttributeError` before this loop can run — see the note on
`cusumData`. -/
theorem cusum_detectDrift_props (historical recent : List ℚ) (threshold : ℚ) :
    ((CUSUM.detectDrift historical recent threshold).1 = true
        ↔ (CUSUM.detectDrift historical recent threshold).2 ≠ [])
    ∧ (CUSUM.detectDrift historical recent threshold).2.Pairwise (· < ·)
    ∧ ∀ j ∈ (CUSUM.detectDrift historical recent threshold).2,
        j < recent.length + historical.length := by
  unfold CUSUM.detectDrift
  refine ⟨?_, cusumScan_sorted _ _ _ 0 0 0, fun j hj => ?_⟩
  · simp [List.length_pos]
  · have := (cusumScan_bounds threshold (historical.sum / historical.length)
      (cusumData historical recent) 0 0 0 j hj).2
    simpa [cusumData] using this

/-! ## Split theorems (claim C7) -/

theorem filter_mem_perm {ι : Type} [DecidableEq ι] (labels choice : List ι)
    (hl : labels.Nodup) (hc : choice.Nodup) (hsub : ∀ c ∈ choice, c ∈ labels) :
    List.Perm (labels.filter fun x => decide (x ∈ choice)) choice := by
  refine (List.perm_ext_iff_of_nodup (hl.filter _) hc).mpr fun a => ?_
  simp only [List.mem_filter, decide_eq_true_eq]
  exact ⟨fun ha => ha.2, fun ha => ⟨hsub a ha, ha⟩⟩

/-- C7 (amended): for a source dataframe with a unique row index and any draw
`choice` of `round(0.8 * n)` distinct row labels (the randomized selection
`sample(frac=0.8)` makes), the two slices partition the source — every row
lies in exactly one slice and their concatenation is a permutation of the
source — with the historical slice holding `round(0.8 * n)` rows and the
recent slice the remaining `n - round(0.8 * n)`.  The split is exact 80%/20%
only when `n` is a multiple of 5. -/
theorem split_partition {ι ρ : Type} [DecidableEq ι] (df : List (ι × ρ))
    (choice : List ι) (hnodup : (df.map Prod.fst).Nodup) (hcnodup : choice.Nodup)
    (hsub : ∀ c ∈ choice, c ∈ df.map Prod.fst)
    (hlen : choice.length = sampleSize df.length) :
    (∀ row ∈ df,
        (row ∈ (splitTable df choice).1 ∧ row ∉ (splitTable df choice).2)
      ∨ (row ∈ (splitTable df choice).2 ∧ row ∉ (splitTable df choice).1))
    ∧ List.Perm ((splitTable df choice).1 ++ (splitTable df choice).2) df
    ∧ (splitTable df choice).1.length = sampleSize df.length
    ∧ (splitTable df choice).2.length = df.length - sampleSize df.length := by
  have hperm : List.Perm ((splitTable df choice).1 ++ (splitTable df choice).2) df :=
    List.filter_append_perm (fun row : ι × ρ => decide (row.1 ∈ choice)) df
  have hhist : (splitTable df choice).1.length = sampleSize df.length := by
    have h3 : ((df.map Prod.fst).filter fun x => decide (x ∈ choice)).length
        = choice.length :=
      (filter_mem_perm _ _ hnodup hcnodup hsub).length_eq
    calc (splitTable df choice).1.length
        = ((df.filter ((fun x => decide (x ∈ choice)) ∘ Prod.fst)).map Prod.fst).length := by
          rw [List.length_map]; rfl
      _ = ((df.map Prod.fst).filter fun x => decide (x ∈ choice)).length := by
          rw [← List.filter_map]
      _ = choice.length := h3
      _ = sampleSize df.length := hlen
  refine ⟨?_, hperm, hhist, ?_⟩
  · intro row hrow
    by_cases hmem : row.1 ∈ choice
    · refine Or.inl ⟨List.mem_filter.mpr ⟨hrow, by simpa using hmem⟩, fun hcon => ?_⟩
      have := (List.mem_filter.mp hcon).2
      simp [hmem] at this
    · refine Or.inr ⟨List.mem_filter.mpr ⟨hrow, by simpa using hmem⟩, fun hcon => ?_⟩
      have := (List.mem_filter.mp hcon).2
      simp [hmem] at this
  · have htot := hperm.length_eq
    rw [List.length_append, hhist] at htot
    omega

/-- `sample(frac=0.8)` on 5 rows draws exactly 4. -/
theorem sampleSize_five : sampleSize 5 = 4 := by
  unfold sampleSize
  rw [round_eq]
  norm_num
  rfl

/-- `sample(frac=0.8)` on 3 rows draws 2. -/
theorem sampleSize_three : sampleSize 3 = 2 := by
  unfold sampleSize
  rw [round_eq]
  norm_num
  rfl

/-- Witness for `split_partition`: a concrete 5-row table and a concrete
4-label draw (the subset and nodup side conditions are discharged by
computation inside the proof). -/
theorem split_partition_witness :
    ([1, 3, 0, 2] : List ℕ).Nodup
    ∧ ([1, 3, 0, 2] : List ℕ).length
        = sampleSize ([((0:ℕ), "a"), (1, "b"), (2, "c"), (3, "d"), (4, "e")]).length
    ∧ (splitTable [((0:ℕ), "a"), (1, "b"), (2, "c"), (3, "d"), (4, "e")]
        [1, 3, 0, 2]).1.length
      = sampleSize ([((0:ℕ), "a"), (1, "b"), (2, "c"), (3, "d"), (4, "e")]).length
    ∧ (splitTable [((0:ℕ), "a"), (1, "b"), (2, "c"), (3, "d"), (4, "e")]
        [1, 3, 0, 2]).2.length
      = ([((0:ℕ), "a"), (1, "b"), (2, "c"), (3, "d"), (4, "e")]).length
        - sampleSize ([((0:ℕ), "a"), (1, "b"), (2, "c"), (3, "d"), (4, "e")]).length := by
  have hlen : ([1, 3, 0, 2] : List ℕ).length
      = sampleSize ([((0:ℕ), "a"), (1, "b"), (2, "c"), (3, "d"), (4, "e")]).length := by
    rw [show ([((0:ℕ), "a"), (1, "b"), (2, "c"), (3, "d"), (4, "e")]).length = 5 from rfl,
      sampleSize_five]
    rfl
  have hmain := split_partition [((0:ℕ), "a"), (1, "b"), (2, "c"), (3, "d"), (4, "e")]
    [1, 3, 0, 2] (by decide) (by decide) (by decide) hlen
  exact ⟨by decide, hlen, hmain.2.2.1, hmain.2.2.2⟩

/-- C7 (counterexample to the claim as stated): on a 3-row source the
historical slice holds `round(0.8 * 3) = 2` rows, which is not 80% of the
rows (`2 ≠ 4/5 * 3`), so the "historical slice holds 80% of the rows" part
of the claim fails for any table whose row count is not a multiple of 5. -/
theorem split_ratio_counterexample :
    sampleSize 3 = 2
    ∧ (sampleRows [((0:ℕ), "a"), (1, "b"), (2, "c")] [0, 1]).length = 2
    ∧ ([0, 1] : List ℕ).length = sampleSize 3
    ∧ ¬((sampleSize 3 : ℚ) = 4 / 5 * 3) := by
  refine ⟨sampleSize_three, rfl, by rw [sampleSize_three]; rfl, ?_⟩
  rw [sampleSize_three]
  norm_num

/-! ## Categorical-detector theorems (claim C10) -/

theorem lookup_eq_none_of_not_mem {ι α : Type} [DecidableEq ι] :
    ∀ (l : List (ι × α)) (i : ι), i ∉ l.map Prod.fst → l.lookup i = none := by
  intro l
  induction l with
  | nil => intro i _; rfl
  | cons p rest ih =>
    obtain ⟨k, v⟩ := p
    intro i hi
    simp only [List.map_cons, List.mem_cons, not_or] at hi
    obtain ⟨h1, h2⟩ := hi
    simp [List.lookup, beq_eq_false_iff_ne.mpr h1, ih i h2]

theorem chi2_contingency_empty :
    chi2_contingency [] = .error "No data; `observed` has size 0." := rfl

/-- C10: the contingency tables of `ChiSquaredTest` and `CramersVTest` pair
the two column series by row-index label; the orchestrator's split produces
label-disjoint slices, and on label-disjoint series the paired-observation
list — and hence the contingency table — is empty, so the chi-squared routine
raises its "no data" error instead of returning a p-value. -/
theorem categorical_detectors_error_on_disjoint_slices {ι α : Type}
    [DecidableEq ι] [DecidableEq α] (historical recent : List (ι × α)) (alpha : ℚ)
    (hdisj : ∀ i ∈ historical.map Prod.fst, i ∉ recent.map Prod.fst) :
    pairedObservations historical recent = []
    ∧ crosstab historical recent = []
    ∧ ChiSquaredTest.detectDrift historical recent alpha
        = .error "No data; `observed` has size 0."
    ∧ CramersVTest.detectDrift historical recent alpha
        = .error "No data; `observed` has size 0."
    ∧ (∀ {ρ : Type} (df : List (ι × ρ)) (choice : List ι),
        ∀ i ∈ ((splitTable df choice).1).map Prod.fst,
          i ∉ ((splitTable df choice).2).map Prod.fst) := by
  have hpairs : pairedObservations historical recent = [] := by
    refine List.filterMap_eq_nil_iff.mpr fun p hp => ?_
    rw [lookup_eq_none_of_not_mem recent p.1
      (hdisj p.1 (List.mem_map_of_mem Prod.fst hp))]
    rfl
  have hct : crosstab historical recent = [] := by
    unfold crosstab
    rw [hpairs]
    rfl
  refine ⟨hpairs, hct, ?_, ?_, ?_⟩
  · unfold ChiSquaredTest.detectDrift
    rw [hct, chi2_contingency_empty]
  · unfold CramersVTest.detectDrift
    rw [hct, chi2_contingency_empty]
  · intro ρ df choice i hi hcon
    obtain ⟨row, hrow, hfst⟩ := List.mem_map.mp hi
    obtain ⟨row', hrow', hfst'⟩ := List.mem_map.mp hcon
    have h1 : decide (row.1 ∈ choice) = true := (List.mem_filter.mp hrow).2
    have h2 : (!decide (row'.1 ∈ choice)) = true := (List.mem_filter.mp hrow').2
    rw [hfst] at h1
    rw [hfst'] at h2
    rw [h1] at h2
    exact Bool.noConfusion h2

/-- Witness for `categorical_detectors_error_on_disjoint_slices` on two
concrete index-disjoint one-row column series. -/
theorem categorical_detectors_error_witness :
    crosstab [((0:ℕ), "a")] [((1:ℕ), "b")] = []
    ∧ ChiSquaredTest.detectDrift [((0:ℕ), "a")] [((1:ℕ), "b")] (1/20)
        = .error "No data; `observed` has size 0."
    ∧ CramersVTest.detectDrift [((0:ℕ), "a")] [((1:ℕ), "b")] (1/20)
        = .error "No data; `observed` has size 0." := by
  have hdisj : ∀ i ∈ ([((0:ℕ), "a")]).map Prod.fst,
      i ∉ ([((1:ℕ), "b")]).map Prod.fst := by decide
  obtain ⟨-, hct, hchi, hcv, -⟩ :=
    categorical_detectors_error_on_disjoint_slices [((0:ℕ), "a")] [((1:ℕ), "b")]
      (1/20) hdisj
  exact ⟨hct, hchi, hcv⟩

/-! ## PSI theorems (claim C3) -/

theorem sum_map_range {M : Type} [AddCommMonoid M] (n : ℕ) (f : ℕ → M) :
    ((List.range n).map f).sum = ∑ j ∈ Finset.range n, f j := by
  induction n with
  | zero => simp
  | succ n ih =>
    rw [List.range_succ, List.map_append, List.sum_append, Finset.sum_range_succ, ih]
    simp

theorem getD_range_map {α : Type} (n : ℕ) (f : ℕ → α) (d : α) {j : ℕ} (hj : j < n) :
    ((List.range n).map f).getD j d = f j := by
  rw [List.getD_eq_getElem _ _ (by simpa using hj)]
  simp

theorem binEdges_length (lo hi : ℚ) (B : ℕ) : (binEdges lo hi B).length = B + 1 := by
  simp [binEdges]

theorem histogramCounts_binEdges (data : List ℚ) (lo hi : ℚ) (B : ℕ) :
    histogramCounts data (binEdges lo hi B)
      = (List.range B).map (countBin data (binEdges lo hi B)) := by
  unfold histogramCounts
  rw [binEdges_length, Nat.add_sub_cancel]

/-- C3: `PSICalculator.detect_drift` computes exactly the PSI the spec
states — the historical sample is discretized into `B` equal-width bins
(consecutive bin edges differ by `(max - min) / B`), the same edges are
applied to the recent sample, `ε` is added to every bin count of both
samples, each smoothed count vector is normalized to a probability vector,
the statistic is `Σ_j (p_recent(j) - p_hist(j)) * ln(p_recent(j)/p_hist(j))`,
and drift is reported iff that statistic exceeds the threshold. -/
theorem psi_refines_spec (historical recent : List ℚ) (B : ℕ)
    (epsilon threshold : ℚ) :
    (PSICalculator.detectDrift historical recent B epsilon threshold).2
        = psiSpec historical recent B epsilon
    ∧ ((PSICalculator.detectDrift historical recent B epsilon threshold).1
        ↔ (PSICalculator.detectDrift historical recent B epsilon threshold).2
            > ((threshold : ℚ) : ℝ))
    ∧ (∀ j < B,
        (npHistogram historical B).2.getD (j + 1) 0
          - (npHistogram historical B).2.getD j 0
        = ((histRange historical).2 - (histRange historical).1) / B) := by
  refine ⟨?_, Iff.rfl, ?_⟩
  · unfold PSICalculator.detectDrift psiSpec specBinProb npHistogram
    simp only
    rw [histogramCounts_binEdges historical _ _ B,
      histogramCounts_binEdges recent _ _ B]
    simp only [List.map_map]
    rw [List.zipWith_map, List.zipWith_same, sum_map_range]
    refine Finset.sum_congr rfl fun j hj => ?_
    have hjB : j < B := Finset.mem_range.mp hj
    rw [getD_range_map B _ 0 hjB, getD_range_map B _ 0 hjB]
    simp [Function.comp]
  · intro j hjB
    unfold npHistogram binEdges
    simp only
    rw [getD_range_map (B + 1) _ 0 (by omega), getD_range_map (B + 1) _ 0 (by omega)]
    push_cast
    ring

/-- Witness for `psi_refines_spec` at a concrete two-bin configuration. -/
theorem psi_refines_spec_witness :
    (PSICalculator.detectDrift [0, 1, 2] [1] 2 (1/100000) (1/10)).2
        = psiSpec [0, 1, 2] [1] 2 (1/100000) :=
  (psi_refines_spec [0, 1, 2] [1] 2 (1/100000) (1/10)).1

/-! ## KL divergence theorems (claim C4)

The key facts about `scipy.stats.entropy(pk, qk)` on normalized nonnegative
vectors: the divergence is nonnegative (Gibbs' inequality) and infinite
exactly when some component has `pk > 0` but `qk = 0`. -/

theorem relEntr_ne_bot (p q : ℚ) : relEntr p q ≠ ⊥ := by
  unfold relEntr
  split
  · simp
  · split
    · simp
    · exact EReal.coe_ne_bot _

theorem ereal_sum_ne_bot (l : List EReal) (hnb : ∀ x ∈ l, x ≠ ⊥) : l.sum ≠ ⊥ := by
  induction l with
  | nil => simp
  | cons a t ih =>
    rw [List.sum_cons]
    rw [Ne, EReal.add_eq_bot_iff]
    push_neg
    exact ⟨hnb a (List.mem_cons_self ..),
      ih fun x hx => hnb x (List.mem_cons_of_mem _ hx)⟩

theorem ereal_sum_eq_top (l : List EReal) (hnb : ∀ x ∈ l, x ≠ ⊥)
    (htop : ⊤ ∈ l) : l.sum = ⊤ := by
  induction l with
  | nil => simp at htop
  | cons a t ih =>
    rw [List.sum_cons]
    rcases List.mem_cons.mp htop with rfl | hmem
    · exact EReal.top_add_of_ne_bot
        (ereal_sum_ne_bot t fun x hx => hnb x (List.mem_cons_of_mem _ hx))
    · rw [ih (fun x hx => hnb x (List.mem_cons_of_mem _ hx)) hmem]
      exact EReal.add_top_of_ne_bot (hnb a (List.mem_cons_self ..))

theorem ereal_sum_coe {α : Type} (l : List α) (f : α → ℝ) :
    (l.map fun x => ((f x : ℝ) : EReal)).sum = (((l.map f).sum : ℝ) : EReal) := by
  induction l with
  | nil => simp
  | cons a t ih => simp [ih, EReal.coe_add]

theorem sum_map_div (l : List ℚ) (s : ℚ) :
    (l.map fun x => x / s).sum = l.sum / s := by
  induction l with
  | nil => simp
  | cons a t ih => simp [ih, add_div]

theorem sum_map_sub {α : Type} (L : List α) (f g : α → ℝ) :
    (L.map fun x => f x - g x).sum = (L.map f).sum - (L.map g).sum := by
  induction L with
  | nil => simp
  | cons a t ih => simp only [List.map_cons, List.sum_cons, ih]; ring

/-- One term of Gibbs' inequality: `p - q ≤ p * log(p / q)` for nonnegative
rationals (with the `p = 0 → 0` convention, and `q ≠ 0` whenever `p ≠ 0`). -/
theorem gibbs_term_lb (p q : ℚ) (hp : 0 ≤ p) (hq : 0 ≤ q) (himp : p ≠ 0 → q ≠ 0) :
    (p : ℝ) - (q : ℝ)
      ≤ if p = 0 then (0 : ℝ) else (p : ℝ) * Real.log ((p / q : ℚ) : ℝ) := by
  by_cases hp0 : p = 0
  · rw [if_pos hp0, hp0]
    simp only [Rat.cast_zero, zero_sub, neg_nonpos]
    exact_mod_cast hq
  · rw [if_neg hp0]
    have hq0 : q ≠ 0 := himp hp0
    have hpR : (0 : ℝ) < (p : ℝ) := by
      exact_mod_cast lt_of_le_of_ne hp (Ne.symm hp0)
    have hqR : (0 : ℝ) < (q : ℝ) := by
      exact_mod_cast lt_of_le_of_ne hq (Ne.symm hq0)
    have hlog : Real.log ((q : ℝ) / (p : ℝ)) ≤ (q : ℝ) / (p : ℝ) - 1 :=
      Real.log_le_sub_one_of_pos (by positivity)
    have hcast : ((p / q : ℚ) : ℝ) = (p : ℝ) / (q : ℝ) := by push_cast; ring
    have hinv : Real.log ((p : ℝ) / (q : ℝ)) = -Real.log ((q : ℝ) / (p : ℝ)) := by
      rw [show (p : ℝ) / (q : ℝ) = ((q : ℝ) / (p : ℝ))⁻¹ by
        rw [inv_div], Real.log_inv]
    rw [hcast, hinv]
    have hmul : (p : ℝ) * Real.log ((q : ℝ) / (p : ℝ))
        ≤ (p : ℝ) * ((q : ℝ) / (p : ℝ) - 1) :=
      mul_le_mul_of_nonneg_left hlog (le_of_lt hpR)
    have hsimp : (p : ℝ) * ((q : ℝ) / (p : ℝ) - 1) = (q : ℝ) - (p : ℝ) := by
      field_simp
    nlinarith [hmul]

/-- Gibbs' inequality and the infinity criterion for
`scipy.stats.entropy(pk, qk)`: over nonnegative vectors of equal length with
nonzero sums, the divergence is nonnegative, and it is `⊤` exactly when some
position has `pk ≠ 0` but `qk = 0`. -/
theorem scipyEntropy_nonneg_top_iff (pk qk : List ℚ)
    (hlen : pk.length = qk.length)
    (hpnn : ∀ p ∈ pk, 0 ≤ p) (hqnn : ∀ q ∈ qk, 0 ≤ q)
    (hps : pk.sum ≠ 0) (hqs : qk.sum ≠ 0) :
    0 ≤ scipyEntropy pk qk
    ∧ (scipyEntropy pk qk = ⊤
        ↔ ∃ pq ∈ pk.zip qk, pq.1 ≠ 0 ∧ pq.2 = 0) := by
  have hS1 : (0 : ℚ) < pk.sum :=
    lt_of_le_of_ne (List.sum_nonneg hpnn) (Ne.symm hps)
  have hS2 : (0 : ℚ) < qk.sum :=
    lt_of_le_of_ne (List.sum_nonneg hqnn) (Ne.symm hqs)
  have hform : scipyEntropy pk qk
      = ((pk.zip qk).map fun pq =>
          relEntr (pq.1 / pk.sum) (pq.2 / qk.sum)).sum := by
    simp only [scipyEntropy]
    rw [List.zip_map, List.map_map]
    rfl
  have hnb : ∀ x ∈ (pk.zip qk).map fun pq =>
      relEntr (pq.1 / pk.sum) (pq.2 / qk.sum), x ≠ ⊥ := by
    intro x hx
    obtain ⟨pq, _, rfl⟩ := List.mem_map.mp hx
    exact relEntr_ne_bot _ _
  by_cases hbad : ∃ pq ∈ pk.zip qk, pq.1 ≠ 0 ∧ pq.2 = 0
  · obtain ⟨pq, hpqmem, hp0, hq0⟩ := hbad
    have hterm : relEntr (pq.1 / pk.sum) (pq.2 / qk.sum) = ⊤ := by
      unfold relEntr
      rw [if_neg (div_ne_zero hp0 hps), if_pos (by rw [hq0, zero_div])]
    have htop : scipyEntropy pk qk = ⊤ := by
      rw [hform]
      exact ereal_sum_eq_top _ hnb (hterm ▸ List.mem_map_of_mem _ hpqmem)
    rw [htop]
    exact ⟨le_top, iff_of_true rfl ⟨pq, hpqmem, hp0, hq0⟩⟩
  · push_neg at hbad
    have hgood : ∀ pq ∈ pk.zip qk, pq.1 ≠ 0 → pq.2 ≠ 0 := fun pq h hp =>
      hbad pq h hp
    have hcoe : scipyEntropy pk qk
        = ((((pk.zip qk).map fun pq =>
            if pq.1 / pk.sum = 0 then (0 : ℝ)
            else ((pq.1 / pk.sum : ℚ) : ℝ)
              * Real.log (((pq.1 / pk.sum) / (pq.2 / qk.sum) : ℚ) : ℝ)).sum : ℝ)
          : EReal) := by
      rw [hform, ← ereal_sum_coe]
      refine congrArg List.sum (List.map_congr_left fun pq hpq => ?_)
      by_cases hp0 : pq.1 / pk.sum = 0
      · rw [if_pos hp0]
        unfold relEntr
        rw [if_pos hp0]
        exact EReal.coe_zero.symm
      · have hp1 : pq.1 ≠ 0 := by
          intro h
          exact hp0 (by rw [h, zero_div])
        have hq1 : pq.2 ≠ 0 := hgood pq hpq hp1
        rw [if_neg hp0]
        unfold relEntr
        rw [if_neg hp0, if_neg (div_ne_zero hq1 hqs)]
    have hmemfacts : ∀ pq ∈ pk.zip qk, 0 ≤ pq.1 ∧ 0 ≤ pq.2 := by
      intro pq hpq
      constructor
      · have hfst := List.map_fst_zip pk qk (le_of_eq hlen)
        exact hpnn pq.1 (hfst ▸ List.mem_map_of_mem Prod.fst hpq)
      · have hsnd := List.map_snd_zip pk qk (ge_of_eq hlen)
        exact hqnn pq.2 (hsnd ▸ List.mem_map_of_mem Prod.snd hpq)
    have hlb : ((pk.zip qk).map fun pq =>
        ((pq.1 / pk.sum : ℚ) : ℝ) - ((pq.2 / qk.sum : ℚ) : ℝ)).sum
        ≤ ((pk.zip qk).map fun pq =>
            if pq.1 / pk.sum = 0 then (0 : ℝ)
            else ((pq.1 / pk.sum : ℚ) : ℝ)
              * Real.log (((pq.1 / pk.sum) / (pq.2 / qk.sum) : ℚ) : ℝ)).sum := by
      refine List.sum_le_sum fun pq hpq => ?_
      obtain ⟨h1, h2⟩ := hmemfacts pq hpq
      exact gibbs_term_lb (pq.1 / pk.sum) (pq.2 / qk.sum)
        (div_nonneg h1 (le_of_lt hS1)) (div_nonneg h2 (le_of_lt hS2))
        (fun hne => div_ne_zero
          (hgood pq hpq fun h => hne (by rw [h, zero_div])) hqs)
    have hzero : ((pk.zip qk).map fun pq =>
        ((pq.1 / pk.sum : ℚ) : ℝ) - ((pq.2 / qk.sum : ℚ) : ℝ)).sum = 0 := by
      rw [sum_map_sub]
      have e1 : ((pk.zip qk).map fun pq => ((pq.1 / pk.sum : ℚ) : ℝ)).sum
          = (((pk.map fun x => x / pk.sum).sum : ℚ) : ℝ) :=
        calc ((pk.zip qk).map fun pq => ((pq.1 / pk.sum : ℚ) : ℝ)).sum
            = (((pk.zip qk).map Prod.fst).map fun x => ((x / pk.sum : ℚ) : ℝ)).sum := by
              rw [List.map_map]; rfl
          _ = (pk.map fun x => ((x / pk.sum : ℚ) : ℝ)).sum := by
              rw [List.map_fst_zip pk qk (le_of_eq hlen)]
          _ = ((pk.map fun x => x / pk.sum).map Rat.cast).sum := by
              rw [List.map_map]; rfl
          _ = (((pk.map fun x => x / pk.sum).sum : ℚ) : ℝ) :=
              (Rat.cast_list_sum _).symm
      have e2 : ((pk.zip qk).map fun pq => ((pq.2 / qk.sum : ℚ) : ℝ)).sum
          = (((qk.map fun x => x / qk.sum).sum : ℚ) : ℝ) :=
        calc ((pk.zip qk).map fun pq => ((pq.2 / qk.sum : ℚ) : ℝ)).sum
            = (((pk.zip qk).map Prod.snd).map fun x => ((x / qk.sum : ℚ) : ℝ)).sum := by
              rw [List.map_map]; rfl
          _ = (qk.map fun x => ((x / qk.sum : ℚ) : ℝ)).sum := by
              rw [List.map_snd_zip pk qk (ge_of_eq hlen)]
          _ = ((qk.map fun x => x / qk.sum).map Rat.cast).sum := by
              rw [List.map_map]; rfl
          _ = (((qk.map fun x => x / qk.sum).sum : ℚ) : ℝ) :=
              (Rat.cast_list_sum _).symm
      rw [e1, e2, sum_map_div, sum_map_div, div_self hps, div_self hqs]
      simp
    constructor
    · rw [hcoe]
      exact EReal.coe_nonneg.mpr (hzero ▸ hlb)
    · rw [hcoe]
      exact iff_of_false (EReal.coe_ne_top _) (by
        rintro ⟨pq, hpqmem, hp0, hq0⟩
        exact hbad pq hpqmem hp0 hq0)

theorem npHistogram_fst (data : List ℚ) (B : ℕ) :
    (npHistogram data B).1
      = histogramCounts data (binEdges (histRange data).1 (histRange data).2 B) := rfl

theorem npHistogram_snd (data : List ℚ) (B : ℕ) :
    (npHistogram data B).2
      = binEdges (histRange data).1 (histRange data).2 B := rfl

theorem histogramCounts_length (data : List ℚ) (lo hi : ℚ) (B : ℕ) :
    (histogramCounts data (binEdges lo hi B)).length = B := by
  rw [histogramCounts_binEdges, List.length_map, List.length_range]

/-- C4 (amended): `KLDivergence.detect_drift` bins both samples with the same
historical-derived equal-width edges as PSI and normalizes the raw counts with
no epsilon smoothing; whenever each sample has at least one value inside the
bin range, the statistic is nonnegative, and it is `+∞` exactly when the
historical sample's bin support is not contained in the recent sample's bin
support; drift is decided by `kld > threshold`. -/
theorem kl_detectDrift_amended (historical recent : List ℚ) (B : ℕ) (threshold : ℚ)
    (hps : (npHistogram historical B).1.sum ≠ 0)
    (hqs : (histogramCounts recent (npHistogram historical B).2).sum ≠ 0) :
    0 ≤ (KLDivergence.detectDrift historical recent B threshold).2
    ∧ ((KLDivergence.detectDrift historical recent B threshold).2 = ⊤
        ↔ ∃ j < B, countBin historical (npHistogram historical B).2 j ≠ 0
            ∧ countBin recent (npHistogram historical B).2 j = 0)
    ∧ ((KLDivergence.detectDrift historical recent B threshold).1
        ↔ (KLDivergence.detectDrift historical recent B threshold).2
            > ((threshold : ℝ) : EReal))
    ∧ (KLDivergence.detectDrift historical recent B threshold).2
        = scipyEntropy ((npHistogram historical B).1.map fun (c : ℕ) => (c : ℚ))
            ((histogramCounts recent (npHistogram historical B).2).map
              fun (c : ℕ) => (c : ℚ)) := by
  have hstat : (KLDivergence.detectDrift historical recent B threshold).2
      = scipyEntropy ((npHistogram historical B).1.map fun (c : ℕ) => (c : ℚ))
          ((histogramCounts recent (npHistogram historical B).2).map
            fun (c : ℕ) => (c : ℚ)) := rfl
  have hlen : ((npHistogram historical B).1.map fun (c : ℕ) => (c : ℚ)).length
      = ((histogramCounts recent (npHistogram historical B).2).map
          fun (c : ℕ) => (c : ℚ)).length := by
    rw [List.length_map, List.length_map, npHistogram_fst, npHistogram_snd,
      histogramCounts_length, histogramCounts_length]
  have hpnn : ∀ p ∈ (npHistogram historical B).1.map fun (c : ℕ) => (c : ℚ),
      0 ≤ p := by
    intro p hp
    obtain ⟨c, _, rfl⟩ := List.mem_map.mp hp
    exact Nat.cast_nonneg c
  have hqnn : ∀ q ∈ (histogramCounts recent (npHistogram historical B).2).map
      fun (c : ℕ) => (c : ℚ), 0 ≤ q := by
    intro q hq
    obtain ⟨c, _, rfl⟩ := List.mem_map.mp hq
    exact Nat.cast_nonneg c
  have hps' : ((npHistogram historical B).1.map fun (c : ℕ) => (c : ℚ)).sum ≠ 0 := by
    have hcast : ((npHistogram historical B).1.map fun (c : ℕ) => (c : ℚ)).sum
        = (((npHistogram historical B).1.sum : ℕ) : ℚ) :=
      (Nat.cast_list_sum _).symm
    rw [hcast]
    exact_mod_cast hps
  have hqs' : ((histogramCounts recent (npHistogram historical B).2).map
      fun (c : ℕ) => (c : ℚ)).sum ≠ 0 := by
    have hcast : ((histogramCounts recent (npHistogram historical B).2).map
        fun (c : ℕ) => (c : ℚ)).sum
        = (((histogramCounts recent (npHistogram historical B).2).sum : ℕ) : ℚ) :=
      (Nat.cast_list_sum _).symm
    rw [hcast]
    exact_mod_cast hqs
  obtain ⟨hnonneg, htop⟩ :=
    scipyEntropy_nonneg_top_iff _ _ hlen hpnn hqnn hps' hqs'
  have hzip : ((npHistogram historical B).1.map fun (c : ℕ) => (c : ℚ)).zip
      ((histogramCounts recent (npHistogram historical B).2).map
        fun (c : ℕ) => (c : ℚ))
      = (List.range B).map fun j =>
          ((countBin historical (npHistogram historical B).2 j : ℚ),
            (countBin recent (npHistogram historical B).2 j : ℚ)) := by
    rw [npHistogram_fst, npHistogram_snd, histogramCounts_binEdges,
      histogramCounts_binEdges, List.map_map, List.map_map, List.zip_map']
    rfl
  have hiff : (∃ pq ∈ ((npHistogram historical B).1.map
        fun (c : ℕ) => (c : ℚ)).zip
        ((histogramCounts recent (npHistogram historical B).2).map
          fun (c : ℕ) => (c : ℚ)), pq.1 ≠ 0 ∧ pq.2 = 0)
      ↔ ∃ j < B, countBin historical (npHistogram historical B).2 j ≠ 0
          ∧ countBin recent (npHistogram historical B).2 j = 0 := by
    rw [hzip]
    constructor
    · rintro ⟨pq, hmem, h1, h2⟩
      obtain ⟨j, hj, rfl⟩ := List.mem_map.mp hmem
      dsimp only at h1 h2
      exact ⟨j, List.mem_range.mp hj, by exact_mod_cast h1, by exact_mod_cast h2⟩
    · rintro ⟨j, hj, h1, h2⟩
      refine ⟨((countBin historical (npHistogram historical B).2 j : ℚ),
        (countBin recent (npHistogram historical B).2 j : ℚ)),
        List.mem_map_of_mem _ (List.mem_range.mpr hj), ?_, ?_⟩
      · dsimp only
        exact_mod_cast h1
      · dsimp only
        exact_mod_cast h2
  refine ⟨?_, ?_, Iff.rfl, hstat⟩
  · rw [hstat]; exact hnonneg
  · rw [hstat]; exact htop.trans hiff

/-! Concrete evaluation of the KL pipeline at historical = [0, 2],
recent = [0], two bins: edges [0, 1, 2], historical counts [1, 1],
recent counts [1, 0]. -/

theorem histRange_two : histRange [0, 2] = (0, 2) := by
  unfold histRange
  norm_num [List.foldl]

theorem npHistogram_two_snd : (npHistogram [0, 2] 2).2 = [0, 1, 2] := by
  rw [npHistogram_snd, histRange_two]
  unfold binEdges
  norm_num [List.range_succ]

theorem countBin_hist_zero : countBin [0, 2] [0, 1, 2] 0 = 1 := by
  norm_num [countBin, List.countP, List.countP.go]

theorem countBin_hist_one : countBin [0, 2] [0, 1, 2] 1 = 1 := by
  norm_num [countBin, List.countP, List.countP.go]

theorem countBin_rec_zero : countBin [0] [0, 1, 2] 0 = 1 := by
  norm_num [countBin, List.countP, List.countP.go]

theorem countBin_rec_one : countBin [0] [0, 1, 2] 1 = 0 := by
  norm_num [countBin, List.countP, List.countP.go]

theorem npHistogram_two_fst : (npHistogram [0, 2] 2).1 = [1, 1] := by
  have hfst : (npHistogram [0, 2] 2).1
      = histogramCounts [0, 2] (npHistogram [0, 2] 2).2 := rfl
  rw [hfst, npHistogram_two_snd]
  unfold histogramCounts
  norm_num [List.range_succ, countBin_hist_zero, countBin_hist_one]

theorem histogramCounts_two_rec :
    histogramCounts [0] (npHistogram [0, 2] 2).2 = [1, 0] := by
  rw [npHistogram_two_snd]
  unfold histogramCounts
  norm_num [List.range_succ, countBin_rec_zero, countBin_rec_one]

theorem scipyEntropy_two_eval : scipyEntropy ([1, 1] : List ℚ) [1, 0] = ⊤ := by
  have hq : relEntr (1/2 : ℚ) 0 = ⊤ := by
    unfold relEntr
    norm_num
  have hform : scipyEntropy ([1, 1] : List ℚ) [1, 0]
      = relEntr (1/2 : ℚ) 1 + (relEntr (1/2 : ℚ) 0 + 0) := by
    simp only [scipyEntropy]
    norm_num [List.zip, List.zipWith]
  rw [hform, hq, add_zero]
  exact EReal.add_top_of_ne_bot (relEntr_ne_bot _ _)

/-- C4 (counterexample to the claim as stated): with historical = [0, 2] and
recent = [0] over two bins, the bin-count vectors are [1, 1] (historical) and
[1, 0] (recent): the recent sample's bin support `{bin 0}` is contained in
the historical sample's bin support `{bin 0, bin 1}`, so the claim says the
statistic is finite — yet the returned KL statistic is `+∞` (the infinity
criterion runs in the other direction: the historical support is not
contained in the recent support). -/
theorem kl_support_direction_counterexample :
    (KLDivergence.detectDrift [0, 2] [0] 2 (1/10)).2 = ⊤
    ∧ histogramCounts [0] (npHistogram [0, 2] 2).2 = [1, 0]
    ∧ (npHistogram [0, 2] 2).1 = [1, 1] := by
  refine ⟨?_, histogramCounts_two_rec, npHistogram_two_fst⟩
  have h0 : (KLDivergence.detectDrift [0, 2] [0] 2 (1/10)).2
      = scipyEntropy ((npHistogram [0, 2] 2).1.map fun (c : ℕ) => (c : ℚ))
          ((histogramCounts [0] (npHistogram [0, 2] 2).2).map
            fun (c : ℕ) => (c : ℚ)) := rfl
  rw [h0, npHistogram_two_fst, histogramCounts_two_rec]
  have hmap1 : (([1, 1] : List ℕ).map fun (c : ℕ) => (c : ℚ)) = [1, 1] := by
    norm_num
  have hmap2 : (([1, 0] : List ℕ).map fun (c : ℕ) => (c : ℚ)) = [1, 0] := by
    norm_num
  rw [hmap1, hmap2, scipyEntropy_two_eval]

/-- Witness for `kl_detectDrift_amended` at the same concrete input. -/
theorem kl_detectDrift_amended_witness :
    (npHistogram [0, 2] 2).1.sum ≠ 0
    ∧ (histogramCounts [0] (npHistogram [0, 2] 2).2).sum ≠ 0
    ∧ 0 ≤ (KLDivergence.detectDrift [0, 2] [0] 2 (1/10)).2 := by
  have h1 : (npHistogram [0, 2] 2).1.sum ≠ 0 := by
    rw [npHistogram_two_fst]
    decide
  have h2 : (histogramCounts [0] (npHistogram [0, 2] 2).2).sum ≠ 0 := by
    rw [histogramCounts_two_rec]
    decide
  exact ⟨h1, h2, (kl_detectDrift_amended [0, 2] [0] 2 (1/10) h1 h2).1⟩

end DriftEngine
